import Mathlib

/-!
# Verification of the ts-gen declaration compiler against its specification

This development gives a shallow embedding of the parts of the `ts-gen`
repository (crates `ts-gen`, `macros` and `cli`) that the specification's
claims are about, and proves or refutes each claim.

Conventions:
* Rust `String` values are modelled as Lean `String` (or `List Char` for the
  inflection engine, which walks characters one by one).
* A Rust function that can `panic!` is modelled with `Option` or
  `Except String` (the `String` carrying the panic message); a function
  returning `Result<T, Error>` is modelled with `Except TsError T`.
* Machine integers that appear (`usize` array lengths) are modelled as `Nat`;
  no arithmetic in the modelled code can overflow.
-/

namespace TsGen

/-! ## Character primitives

`Char.toNat` is the Unicode scalar value, exactly as Rust's `char as u32`.
`toAsciiLower` and `toAsciiUpper` are Rust's `char::to_ascii_lowercase` and
`char::to_ascii_uppercase`: they map the 26 basic latin letters and leave
every other character (ASCII or not) unchanged.
-/

/-- Rust `char::to_ascii_lowercase`: maps `'A'..='Z'` (scalar values 65–90)
to the corresponding lowercase letter and leaves all other characters
unchanged. -/
def toAsciiLower (c : Char) : Char :=
  if 65 ≤ c.toNat ∧ c.toNat ≤ 90 then Char.ofNat (c.toNat + 32) else c

/-- Rust `char::to_ascii_uppercase`: maps `'a'..='z'` (scalar values 97–122)
to the corresponding uppercase letter and leaves all other characters
unchanged. -/
def toAsciiUpper (c : Char) : Char :=
  if 97 ≤ c.toNat ∧ c.toNat ≤ 122 then Char.ofNat (c.toNat - 32) else c

/-- Rust `char::is_uppercase` restricted to the ASCII range, where the Unicode
`Uppercase` property coincides with membership in `'A'..='Z'`.  The theorems
of this development only evaluate it on ASCII characters. -/
def isUppercaseChar (c : Char) : Bool :=
  decide (65 ≤ c.toNat ∧ c.toNat ≤ 90)

/-- An ASCII letter, `'A'..='Z'` or `'a'..='z'`. -/
def isAsciiLetter (c : Char) : Bool :=
  decide ((65 ≤ c.toNat ∧ c.toNat ≤ 90) ∨ (97 ≤ c.toNat ∧ c.toNat ≤ 122))

theorem toNat_ofNat_valid (n : Nat) (h : n < 0xd800) : (Char.ofNat n).toNat = n := by
  rw [Char.ofNat, dif_pos (Or.inl h)]
  simp [Char.ofNatAux, Char.toNat, UInt32.ofNat', BitVec.ofNatLt, UInt32.toNat]

theorem toNat_toAsciiLower_of_upper (c : Char) (h : 65 ≤ c.toNat ∧ c.toNat ≤ 90) :
    (toAsciiLower c).toNat = c.toNat + 32 := by
  rw [toAsciiLower, if_pos h, toNat_ofNat_valid _ (by omega)]

theorem toAsciiLower_of_not_upper (c : Char) (h : ¬(65 ≤ c.toNat ∧ c.toNat ≤ 90)) :
    toAsciiLower c = c := by
  rw [toAsciiLower, if_neg h]

theorem toAsciiUpper_toAsciiLower_of_upper (c : Char) (h : 65 ≤ c.toNat ∧ c.toNat ≤ 90) :
    toAsciiUpper (toAsciiLower c) = c := by
  rw [toAsciiLower, if_pos h, toAsciiUpper]
  rw [toNat_ofNat_valid _ (by omega), if_pos (by omega)]
  have heq : c.toNat + 32 - 32 = c.toNat := by omega
  rw [heq, Char.ofNat_toNat]

theorem toAsciiUpper_idem (c : Char) : toAsciiUpper (toAsciiUpper c) = toAsciiUpper c := by
  by_cases h : 97 ≤ c.toNat ∧ c.toNat ≤ 122
  · have h1 : toAsciiUpper c = Char.ofNat (c.toNat - 32) := by rw [toAsciiUpper, if_pos h]
    rw [h1, toAsciiUpper, toNat_ofNat_valid _ (by omega), if_neg (by omega)]
  · have h1 : toAsciiUpper c = c := by rw [toAsciiUpper, if_neg h]
    rw [h1, toAsciiUpper, if_neg h]

theorem toAsciiLower_idem (c : Char) : toAsciiLower (toAsciiLower c) = toAsciiLower c := by
  by_cases h : 65 ≤ c.toNat ∧ c.toNat ≤ 90
  · have h1 : toAsciiLower c = Char.ofNat (c.toNat + 32) := by rw [toAsciiLower, if_pos h]
    rw [h1, toAsciiLower, toNat_ofNat_valid _ (by omega), if_neg (by omega)]
  · have h1 : toAsciiLower c = c := by rw [toAsciiLower, if_neg h]
    rw [h1, toAsciiLower, if_neg h]

theorem toNat_toAsciiLower_of_letter (c : Char) (h : isAsciiLetter c = true) :
    97 ≤ (toAsciiLower c).toNat ∧ (toAsciiLower c).toNat ≤ 122 := by
  simp only [isAsciiLetter, decide_eq_true_eq] at h
  rcases h with h | h
  · rw [toNat_toAsciiLower_of_upper c h]; omega
  · rw [toAsciiLower_of_not_upper c (by omega)]; omega

theorem toAsciiUpper_upper_of_letter (c : Char) (h : isAsciiLetter c = true) :
    65 ≤ (toAsciiUpper c).toNat ∧ (toAsciiUpper c).toNat ≤ 90 := by
  simp only [isAsciiLetter, decide_eq_true_eq] at h
  rcases h with h | h
  · rw [toAsciiUpper, if_neg (by omega)]; omega
  · rw [toAsciiUpper, if_pos h, toNat_ofNat_valid _ (by omega)]; omega

/-! ## Inflection engine (`macros/src/attr/mod.rs`, `Inflection::apply`)

Strings are modelled as `List Char`.  The `Lower` and `Upper` variants call
Rust's Unicode `str::to_lowercase` / `str::to_uppercase`; on ASCII characters
those agree with the ASCII case maps, and every claim about them is restricted
to ASCII input, so this model maps non-ASCII characters to themselves.

The `Camel` variant computes `pascal[..1].to_ascii_lowercase() + &pascal[1..]`.
Byte-slicing `pascal[..1]` panics when `pascal` is empty (range out of bounds)
or when its first character occupies more than one UTF-8 byte (not a char
boundary), i.e. when its scalar value is ≥ 128.  `apply` therefore returns an
`Option`, `none` standing for a panic; every other variant always returns
`some`.
-/

inductive Inflection where
  | lower
  | upper
  | camel
  | snake
  | pascal
  | screamingSnake
  | kebab
  | screamingKebab
deriving DecidableEq

/-- Rust `str::to_lowercase` (Unicode), modelled on the ASCII range where it
agrees with `to_ascii_lowercase`; non-ASCII characters are kept unchanged. -/
def unicodeLower (s : List Char) : List Char := s.map toAsciiLower

/-- Rust `str::to_uppercase` (Unicode), modelled on the ASCII range where it
agrees with `to_ascii_uppercase`; non-ASCII characters are kept unchanged. -/
def unicodeUpper (s : List Char) : List Char := s.map toAsciiUpper

/-- The `Snake` loop body for every character except the first: push `'_'`
before an uppercase letter, then push the character lowercased. -/
def snakeTail : List Char → List Char
  | [] => []
  | c :: rest =>
    (if isUppercaseChar c then ['_', toAsciiLower c] else [toAsciiLower c]) ++ snakeTail rest

/-- `Inflection::Snake`: insert `'_'` before every uppercase character whose
index is not 0, lowercasing everything (`ch.to_ascii_lowercase()`). -/
def snakeCase : List Char → List Char
  | [] => []
  | c :: rest => toAsciiLower c :: snakeTail rest

/-- The `Pascal` loop: `capitalize` starts `true`; `'_'` is dropped and sets
`capitalize`; otherwise the character is pushed, uppercased when `capitalize`
was set. -/
def pascalAux : Bool → List Char → List Char
  | _, [] => []
  | cap, c :: rest =>
    if c = '_' then pascalAux true rest
    else (if cap then toAsciiUpper c else c) :: pascalAux false rest

/-- `Inflection::Pascal`. -/
def pascalCase (s : List Char) : List Char := pascalAux true s

/-- `'_'` replaced by `'-'` (Rust `str::replace('_', "-")`). -/
def underscoreToHyphen (c : Char) : Char := if c = '_' then '-' else c

/-- `Inflection::apply`.  `none` models a panic; only the `Camel` branch can
panic (via the byte slice `pascal[..1]`). -/
def Inflection.apply : Inflection → List Char → Option (List Char)
  | .lower, s => some (unicodeLower s)
  | .upper, s => some (unicodeUpper s)
  | .camel, s =>
    match pascalCase s with
    | [] => none
    | c :: rest => if c.toNat < 128 then some (toAsciiLower c :: rest) else none
  | .snake, s => some (snakeCase s)
  | .pascal, s => some (pascalCase s)
  | .screamingSnake, s => some ((snakeCase s).map toAsciiUpper)
  | .kebab, s => some ((snakeCase s).map underscoreToHyphen)
  | .screamingKebab, s => some (((snakeCase s).map underscoreToHyphen).map toAsciiUpper)

/-! ### Structural lemmas about the inflection engine -/

theorem isAsciiLetter_toAsciiUpper (c : Char) (h : isAsciiLetter c = true) :
    isAsciiLetter (toAsciiUpper c) = true := by
  have hu := toAsciiUpper_upper_of_letter c h
  simp only [isAsciiLetter, decide_eq_true_eq]
  omega

theorem toAsciiLower_ne_underscore (c : Char) (h : isAsciiLetter c = true) :
    toAsciiLower c ≠ '_' := by
  have hl := toNat_toAsciiLower_of_letter c h
  intro heq
  rw [heq] at hl
  have h95 : ('_' : Char).toNat = 95 := by decide
  omega

theorem pascalAux_letters (s : List Char)
    (h : ∀ c ∈ s, isAsciiLetter c = true ∨ c = '_') :
    ∀ cap, ∀ c ∈ pascalAux cap s, isAsciiLetter c = true := by
  induction s with
  | nil => intro cap c hc; simp [pascalAux] at hc
  | cons a rest ih =>
    intro cap c hc
    have ha := h a (by simp)
    have hrest : ∀ c ∈ rest, isAsciiLetter c = true ∨ c = '_' :=
      fun c hc => h c (by simp [hc])
    by_cases hu : a = '_'
    · rw [pascalAux, if_pos hu] at hc
      exact ih hrest true c hc
    · rw [pascalAux, if_neg hu] at hc
      rcases List.mem_cons.mp hc with hc | hc


      · subst hc
        rcases ha with ha | ha
        · cases cap with
          | true => simpa using isAsciiLetter_toAsciiUpper a ha
          | false => simpa using ha
        · exact absurd ha hu
      · exact ih hrest false c hc

theorem pascalAux_true_head (s : List Char)
    (h : ∀ c ∈ s, isAsciiLetter c = true ∨ c = '_') :
    pascalAux true s = [] ∨
      ∃ c rest, pascalAux true s = c :: rest ∧ isUppercaseChar c = true := by
  induction s with
  | nil => exact Or.inl rfl
  | cons a rest ih =>
    have ha := h a (by simp)
    have hrest : ∀ c ∈ rest, isAsciiLetter c = true ∨ c = '_' :=
      fun c hc => h c (by simp [hc])
    by_cases hu : a = '_'
    · rw [pascalAux, if_pos hu]
      exact ih hrest
    · rw [pascalAux, if_neg hu]
      refine Or.inr ⟨toAsciiUpper a, pascalAux false rest, by simp, ?_⟩
      rcases ha with ha | ha
      · have := toAsciiUpper_upper_of_letter a ha
        simp only [isUppercaseChar, decide_eq_true_eq]
        omega
      · exact absurd ha hu

theorem pascalAux_false_snakeTail (p : List Char)
    (h : ∀ c ∈ p, isAsciiLetter c = true) :
    pascalAux false (snakeTail p) = p := by
  induction p with
  | nil => rfl
  | cons a rest ih =>
    have ha := h a (by simp)
    have hrest : ∀ c ∈ rest, isAsciiLetter c = true :=
      fun c hc => h c (by simp [hc])
    rw [snakeTail]
    by_cases hu : isUppercaseChar a = true
    · rw [if_pos hu]
      have hrange : 65 ≤ a.toNat ∧ a.toNat ≤ 90 := by
        simpa [isUppercaseChar] using hu
      have hne : toAsciiLower a ≠ '_' :=
        toAsciiLower_ne_underscore a ha
      simp only [List.cons_append, List.nil_append]
      rw [pascalAux, if_pos rfl, pascalAux, if_neg hne]
      simp [toAsciiUpper_toAsciiLower_of_upper a hrange, ih hrest]
    · rw [if_neg hu]
      have hq : ¬(65 ≤ a.toNat ∧ a.toNat ≤ 90) := by
        simpa [isUppercaseChar] using hu
      have hlow : toAsciiLower a = a := toAsciiLower_of_not_upper a hq
      have hne : a ≠ '_' := by
        intro heq
        rw [heq] at ha
        exact absurd ha (by decide)
      simp only [List.cons_append, List.nil_append]
      rw [hlow, pascalAux, if_neg hne]
      simp [ih hrest]

theorem pascal_snake_of_upper_head (p : List Char)
    (hlet : ∀ c ∈ p, isAsciiLetter c = true)
    (hhead : p = [] ∨ ∃ c rest, p = c :: rest ∧ isUppercaseChar c = true) :
    pascalCase (snakeCase p) = p := by
  rcases hhead with rfl | ⟨c, rest, rfl, hu⟩
  · rfl
  · have hc := hlet c (by simp)
    have hrest : ∀ x ∈ rest, isAsciiLetter x = true :=
      fun x hx => hlet x (by simp [hx])
    have hrange : 65 ≤ c.toNat ∧ c.toNat ≤ 90 := by
      simpa [isUppercaseChar] using hu
    have hne : toAsciiLower c ≠ '_' := toAsciiLower_ne_underscore c hc
    rw [snakeCase, pascalCase, pascalAux, if_neg hne]
    simp [toAsciiUpper_toAsciiLower_of_upper c hrange,
      pascalAux_false_snakeTail rest hrest]

/-! ### Claims C2, C8 and C9 -/

/-- C2 counterexample: the claim asserts idempotence of `apply` for the
screaming-snake variant on every non-empty ASCII identifier, but applying
screaming-snake to `"ab"` yields `"AB"`, and applying it again yields
`"A_B"` (the snake pass inserts a separator before the now-uppercase second
letter), so re-application does not equal single application. -/
theorem C2_counterexample :
    (Inflection.apply .screamingSnake ['a', 'b']).bind (Inflection.apply .screamingSnake) ≠
      Inflection.apply .screamingSnake ['a', 'b'] := by
  decide

/-- C2 (amended): for every non-empty ASCII input, `apply` is idempotent for
the upper and lower variants; the screaming-snake variant claimed alongside
them is not idempotent (see the counterexample). -/
theorem C2_upper_lower_idempotent (s : List Char) (_hne : s ≠ [])
    (_hascii : ∀ c ∈ s, c.toNat < 128) :
    (Inflection.apply .upper s).bind (Inflection.apply .upper) =
        Inflection.apply .upper s ∧
      (Inflection.apply .lower s).bind (Inflection.apply .lower) =
        Inflection.apply .lower s := by
  constructor
  · simp [Inflection.apply, unicodeUpper, List.map_map, Function.comp_def,
      toAsciiUpper_idem]
  · simp [Inflection.apply, unicodeLower, List.map_map, Function.comp_def,
      toAsciiLower_idem]

/-- C2 witness: the amended idempotence instantiated at the concrete
non-empty ASCII identifier `"ab"`. -/
theorem C2_witness :
    (Inflection.apply .upper ['a', 'b']).bind (Inflection.apply .upper) =
        Inflection.apply .upper ['a', 'b'] ∧
      (Inflection.apply .lower ['a', 'b']).bind (Inflection.apply .lower) =
        Inflection.apply .lower ['a', 'b'] :=
  C2_upper_lower_idempotent ['a', 'b'] (by decide) (by decide)

/-- C8 counterexample: the claim asserts that `apply` returns a string for
every variant and every input string including the empty string, but the
camel variant evaluates `pascal[..1]` on the empty pascalized string, which
panics (modelled by `none`). -/
theorem C8_counterexample : Inflection.apply .camel [] = none := by
  decide

/-- C8 (amended): `apply` never fails for any variant except camel; the camel
variant fails exactly when the pascal form of the input is empty (the input is
empty or all underscores) or starts with a non-ASCII character (whose UTF-8
encoding is longer than the one byte sliced by `pascal[..1]`). -/
theorem C8_apply_total_except_camel (v : Inflection) (s : List Char) :
    Inflection.apply v s = none ↔
      v = .camel ∧
        (pascalCase s = [] ∨
          ∃ c rest, pascalCase s = c :: rest ∧ 128 ≤ c.toNat) := by
  cases v with
  | camel =>
    simp only [Inflection.apply, true_and]
    cases h : pascalCase s with
    | nil => simp
    | cons c rest =>
      by_cases hc : c.toNat < 128
      · simp only [if_pos hc]
        refine iff_of_false (by simp) ?_
        rintro (hnil | ⟨c2, r2, heq, hge⟩)
        · cases hnil
        · cases heq; omega
      · simp only [if_neg hc]
        exact iff_of_true (by trivial) (Or.inr ⟨c, rest, rfl, by omega⟩)
  | lower => simp [Inflection.apply]
  | upper => simp [Inflection.apply]
  | snake => simp [Inflection.apply]
  | pascal => simp [Inflection.apply]
  | screamingSnake => simp [Inflection.apply]
  | kebab => simp [Inflection.apply]
  | screamingKebab => simp [Inflection.apply]

/-- C9 (confirmed): for inputs made of ASCII letters and underscores,
Pascal, then Snake, then Pascal reconstructs the Pascal form of the original
segmentation: `apply(Pascal, apply(Snake, apply(Pascal, s))) =
apply(Pascal, s)`. -/
theorem C9_pascal_snake_pascal_roundtrip (s : List Char)
    (h : ∀ c ∈ s, isAsciiLetter c = true ∨ c = '_') :
    (Inflection.apply .pascal s).bind
        (fun t => (Inflection.apply .snake t).bind (Inflection.apply .pascal)) =
      Inflection.apply .pascal s := by
  simp only [Inflection.apply, Option.some_bind, Option.some.injEq]
  exact pascal_snake_of_upper_head (pascalCase s)
    (pascalAux_letters s h true) (pascalAux_true_head s h)

/-- C9 witness: the round-trip at the concrete input `"UserId"`
(`"UserId"` → `"user_id"` → `"UserId"`). -/
theorem C9_witness :
    (Inflection.apply .pascal ['U', 's', 'e', 'r', 'I', 'd']).bind
        (fun t => (Inflection.apply .snake t).bind (Inflection.apply .pascal)) =
      Inflection.apply .pascal ['U', 's', 'e', 'r', 'I', 'd'] :=
  C9_pascal_snake_pascal_roundtrip ['U', 's', 'e', 'r', 'I', 'd'] (by decide)

/-! ## Substring machinery

Several claims say that an error message "names" a type or a key, i.e. that
the name occurs inside the message.  `containsStr hay needle` decides whether
`needle` occurs contiguously inside `hay`.
-/

/-- Does `needle` occur at the very start of `hay`? -/
def listStarts : List Char → List Char → Bool
  | _, [] => true
  | [], _ :: _ => false
  | h :: hs, n :: ns => h == n && listStarts hs ns

/-- Does `needle` occur contiguously anywhere inside `hay`? -/
def listHasSub : List Char → List Char → Bool
  | [], needle => needle.isEmpty
  | h :: t, needle => listStarts (h :: t) needle || listHasSub t needle

/-- Does the string `needle` occur contiguously inside the string `hay`? -/
def containsStr (hay needle : String) : Bool :=
  listHasSub hay.data needle.data

theorem listStarts_append (n post : List Char) : listStarts (n ++ post) n = true := by
  induction n with
  | nil => cases post <;> rfl
  | cons c cs ih => simp [listStarts, ih]

theorem listHasSub_of_starts (hay needle : List Char)
    (h : listStarts hay needle = true) : listHasSub hay needle = true := by
  cases hay with
  | nil =>
    cases needle with
    | nil => rfl
    | cons n ns => simp [listStarts] at h
  | cons c cs => simp [listHasSub, h]

theorem listHasSub_append_left (pre hay needle : List Char)
    (h : listHasSub hay needle = true) :
    listHasSub (pre ++ hay) needle = true := by
  induction pre with
  | nil => simpa using h
  | cons p ps ih => simp [listHasSub, ih]

theorem listHasSub_infix (pre needle post : List Char) :
    listHasSub (pre ++ (needle ++ post)) needle = true :=
  listHasSub_append_left pre (needle ++ post) needle
    (listHasSub_of_starts _ _ (listStarts_append needle post))

theorem containsStr_of_data_infix (hay needle : String)
    (h : ∃ pre post, hay.data = pre ++ (needle.data ++ post)) :
    containsStr hay needle = true := by
  obtain ⟨pre, post, heq⟩ := h
  rw [containsStr, heq]
  exact listHasSub_infix pre needle.data post

/-- Concatenations expose their middle part as an infix at the `.data` level. -/
theorem containsStr_append_middle (a b c : String) :
    containsStr (a ++ (b ++ c)) b = true := by
  apply containsStr_of_data_infix
  exact ⟨a.data, c.data, by simp⟩

theorem containsStr_append_right (a b x : String) (h : containsStr b x = true) :
    containsStr (a ++ b) x = true := by
  rw [containsStr, String.data_append]
  exact listHasSub_append_left a.data b.data x.data h

/-- Rust `slice::join`: the separator goes between elements only. -/
def joinStr (sep : String) : List String → String
  | [] => ""
  | [x] => x
  | x :: y :: rest => x ++ sep ++ joinStr sep (y :: rest)

theorem joinStr_mem_split (sep : String) (l : List String) (x : String)
    (h : x ∈ l) : ∃ pre post, joinStr sep l = pre ++ (x ++ post) := by
  induction l with
  | nil => cases h
  | cons a rest ih =>
    cases rest with
    | nil =>
      have hx : x = a := by simpa using h
      subst hx
      exact ⟨"", "", by simp [joinStr]⟩
    | cons b bs =>
      rcases List.mem_cons.mp h with hx | hx
      · subst hx
        refine ⟨"", sep ++ joinStr sep (b :: bs), ?_⟩
        simp [joinStr, String.append_assoc]
      · obtain ⟨pre, post, heq⟩ := ih hx
        refine ⟨a ++ sep ++ pre, post, ?_⟩
        simp [joinStr, heq, String.append_assoc]

/-! ## Shape capabilities (`ts-gen/src/lib.rs` impl macros, `ts-gen/src/chrono.rs`)

Each built-in `TS` impl family is modelled as a record of the five string
operations.  An operation that `panic!`s is an `Except.error` carrying the
panic message; an operation that returns is `Except.ok`.
-/

structure TsShape where
  name : String
  decl : Except String String
  declConcrete : Except String String
  inline : Except String String
  inlineFlattened : Except String String

/-- `impl_primitives!`: `name()` is the literal (e.g. `"number"`), `inline()`
returns the name, and `decl`/`decl_concrete`/`inline_flattened` panic with
`"{name} cannot be declared"` / `"{name} cannot be flattened"`. -/
def primTS (lit : String) : TsShape where
  name := lit
  decl := .error (lit ++ " cannot be declared")
  declConcrete := .error (lit ++ " cannot be declared")
  inline := .ok lit
  inlineFlattened := .error (lit ++ " cannot be flattened")

/-- `impl_tuples!`: `name()` is `"[{T1::name(), ...}]"` joined with `", "`;
all four other operations panic with messages that mention only the word
"tuple", not the tuple's name. -/
def tupleTS (elemNames : List String) : TsShape where
  name := "[" ++ joinStr ", " elemNames ++ "]"
  decl := .error "tuple cannot be declared"
  declConcrete := .error "tuple cannot be declared"
  inline := .error "tuple cannot be inlined!"
  inlineFlattened := .error "tuple cannot be flattened"

/-- `impl_wrapper!` (`&T`, `Box`, `Arc`, `Rc`, `Cow`, `Cell`, `RefCell`,
`Mutex`, `Weak`, `PhantomData`): `name`/`inline`/`inline_flattened` defer to
the inner type; `decl`/`decl_concrete` panic with the fixed message
`"wrapper type cannot be declared"`. -/
def wrapperTS (inner : TsShape) : TsShape where
  name := inner.name
  decl := .error "wrapper type cannot be declared"
  declConcrete := .error "wrapper type cannot be declared"
  inline := inner.inline
  inlineFlattened := inner.inlineFlattened

/-- `impl<T: TS> TS for Option<T>`: `name()`/`inline()` append `" | null"`;
`decl`/`decl_concrete`/`inline_flattened` panic with `Self::name()`
interpolated into the message. -/
def optionTS (inner : TsShape) : TsShape where
  name := inner.name ++ " | null"
  decl := .error (inner.name ++ " | null" ++ " cannot be declared")
  declConcrete := .error (inner.name ++ " | null" ++ " cannot be declared")
  inline := inner.inline.map (fun s => s ++ " | null")
  inlineFlattened := .error (inner.name ++ " | null" ++ " cannot be flattened")

/-- `impl_dummy!` in `chrono.rs` (`Utc`, `Local`, `FixedOffset`): `name()` and
`inline()` both return the empty string (`String::new()`), so the panic
messages of `decl`/`decl_concrete`/`inline_flattened` interpolate an empty
name. -/
def chronoDummyTS : TsShape where
  name := ""
  decl := .error ("" ++ " cannot be declared")
  declConcrete := .error ("" ++ " cannot be declared")
  inline := .ok ""
  inlineFlattened := .error ("" ++ " cannot be flattened")

theorem containsStr_self_append (x post : String) : containsStr (x ++ post) x = true :=
  containsStr_of_data_infix _ _ ⟨[], post.data, by simp⟩

/-- C1 counterexample: the claim says every unsupported operation fails with a
failure naming the type; but `decl()` on the one-element tuple `(i32,)`
(TypeScript name `"[number]"`) panics with the fixed message
`"tuple cannot be declared"`, which does not contain the tuple's name. -/
theorem C1_counterexample :
    (tupleTS ["number"]).name = "[number]" ∧
      (tupleTS ["number"]).decl = Except.error "tuple cannot be declared" ∧
      containsStr "tuple cannot be declared" "[number]" = false := by
  refine ⟨rfl, rfl, ?_⟩
  decide

/-- C1 (amended): every unsupported operation on these shapes panics rather
than returning a string — in particular `decl()` on every tuple fails — and
the panic message interpolates the type's name for `Option` and primitives;
but tuple and wrapper panics name only the shape kind (`"tuple"`,
`"wrapper type"`), and the chrono timezone marker types interpolate their
empty name into the panic message while their `inline()` silently returns the
empty string. -/
theorem C1_shape_capability_failures (elemNames : List String) (inner : TsShape)
    (lit : String) :
    ((tupleTS elemNames).decl = Except.error "tuple cannot be declared" ∧
      (tupleTS elemNames).declConcrete = Except.error "tuple cannot be declared" ∧
      (tupleTS elemNames).inline = Except.error "tuple cannot be inlined!" ∧
      (tupleTS elemNames).inlineFlattened = Except.error "tuple cannot be flattened") ∧
    ((wrapperTS inner).decl = Except.error "wrapper type cannot be declared" ∧
      (wrapperTS inner).declConcrete = Except.error "wrapper type cannot be declared") ∧
    ((optionTS inner).decl =
        Except.error ((optionTS inner).name ++ " cannot be declared") ∧
      (optionTS inner).declConcrete =
        Except.error ((optionTS inner).name ++ " cannot be declared") ∧
      (optionTS inner).inlineFlattened =
        Except.error ((optionTS inner).name ++ " cannot be flattened") ∧
      containsStr ((optionTS inner).name ++ " cannot be declared")
        (optionTS inner).name = true) ∧
    ((primTS lit).decl = Except.error (lit ++ " cannot be declared") ∧
      (primTS lit).declConcrete = Except.error (lit ++ " cannot be declared") ∧
      (primTS lit).inlineFlattened = Except.error (lit ++ " cannot be flattened") ∧
      containsStr (lit ++ " cannot be declared") lit = true) ∧
    (chronoDummyTS.decl = Except.error " cannot be declared" ∧
      chronoDummyTS.declConcrete = Except.error " cannot be declared" ∧
      chronoDummyTS.inlineFlattened = Except.error " cannot be flattened" ∧
      chronoDummyTS.inline = Except.ok "") := by
  refine ⟨⟨rfl, rfl, rfl, rfl⟩, ⟨rfl, rfl⟩,
    ⟨rfl, rfl, rfl, containsStr_self_append _ _⟩,
    ⟨rfl, rfl, rfl, containsStr_self_append _ _⟩,
    ⟨rfl, rfl, rfl, rfl⟩⟩

/-! ## Derived types: `decl()` / `decl_concrete()` (`macros/src/lib.rs`,
`DerivedTS::generate_decl_fn` and `utils.rs::format_generics`)

A type derived by the macro is modelled by its TypeScript name (`ts_name`),
its generic type parameters (ident plus optional default, lifetimes and const
parameters being ignored by `format_generics`), and `inlineAt`, the generated
`inline()` body as a function of the TypeScript names substituted for the
generic type parameters (the generated code refers to the parameters only
through `<P as TS>::name()` etc., so `inline()` of an instantiation is a
function of those names; for a type with no type parameters it is constant).
-/

structure TypeParamModel where
  ident : String
  dflt : Option String

structure DerivedTS where
  ts_name : String
  typeParams : List TypeParamModel
  inlineAt : List String → String

/-- `utils.rs::format_generics`: the empty string when there are no generic
type parameters, else `"<"` + comma-joined parameters + `">"`, a parameter
with a default rendering as `"{ident} = {default-name}"`. -/
def format_generics (tps : List TypeParamModel) : String :=
  if tps.isEmpty then ""
  else
    "<" ++ joinStr ", "
      (tps.map fun p =>
        match p.dflt with
        | none => p.ident
        | some d => p.ident ++ " = " ++ d) ++ ">"

/-- `decl_concrete()`: `format!("type {} = {};", #name, <Self as TS>::inline())`
with whatever concrete generic arguments the call site used. -/
def DerivedTS.decl_concrete (d : DerivedTS) (args : List String) : String :=
  "type " ++ d.ts_name ++ " = " ++ d.inlineAt args ++ ";"

/-- `decl()`: the inline form is recompiled with the dummy placeholder types
(one per generic type parameter, named like the parameter), and the generic
parameter list is appended to the name. -/
def DerivedTS.decl (d : DerivedTS) : String :=
  "type " ++ d.ts_name ++ format_generics d.typeParams ++ " = " ++
    d.inlineAt (d.typeParams.map (·.ident)) ++ ";"

/-- C5 (confirmed): `decl_concrete()` is exactly
`"type {ts_name} = {inline};"` with the call site's concrete inline form (no
placeholder step), and for a type with no generic type parameters `decl()`
produces the identical string. -/
theorem C5_decl_concrete_format (d : DerivedTS) (args : List String) :
    d.decl_concrete args = "type " ++ d.ts_name ++ " = " ++ d.inlineAt args ++ ";" ∧
      (d.typeParams = [] → d.decl = d.decl_concrete []) := by
  refine ⟨rfl, fun h => ?_⟩
  rw [DerivedTS.decl, DerivedTS.decl_concrete, h]
  simp [format_generics]

/-- C5 witness: the format at the concrete non-generic type
`type User = { user_id: number };`. -/
theorem C5_witness :
    (DerivedTS.decl_concrete ⟨"User", [], fun _ => "{ user_id: number }"⟩ [] =
        "type " ++ "User" ++ " = " ++ "{ user_id: number }" ++ ";") ∧
      DerivedTS.decl ⟨"User", [], fun _ => "{ user_id: number }"⟩ =
        DerivedTS.decl_concrete ⟨"User", [], fun _ => "{ user_id: number }"⟩ [] :=
  ⟨(C5_decl_concrete_format ⟨"User", [], fun _ => "{ user_id: number }"⟩ []).1,
    (C5_decl_concrete_format ⟨"User", [], fun _ => "{ user_id: number }"⟩ []).2 rfl⟩

/-! ## Fixed-size arrays (`ts-gen/src/lib.rs`, `impl<T: TS, const N: usize> TS
for [T; N]` and `impl<T: TS> TS for Vec<T>`) -/

/-- `Vec::<T>::name()` / `Vec::<T>::inline()`: `"Array<{T}>"`. -/
def vecForm (t : String) : String := "Array<" ++ t ++ ">"

def ARRAY_TUPLE_LIMIT : Nat := 64

/-- `<[T; N]>::name()` (and, with `T::inline()` substituted, `inline()`):
`Vec`'s form when `N > ARRAY_TUPLE_LIMIT`, else the `N`-element tuple form. -/
def arrayForm (t : String) (N : Nat) : String :=
  if N > ARRAY_TUPLE_LIMIT then vecForm t
  else "[" ++ joinStr ", " (List.replicate N t) ++ "]"

/-- `<[T; N]>::decl()` and `decl_concrete()`: always panic with
`"{Self::name()} cannot be declared"`. -/
def arrayDecl (t : String) (N : Nat) : Except String String :=
  .error (arrayForm t N ++ " cannot be declared")

/-- `<[T; N]>::inline_flattened()`: always panics with
`"{Self::name()} cannot be flattened"`. -/
def arrayInlineFlattened (t : String) (N : Nat) : Except String String :=
  .error (arrayForm t N ++ " cannot be flattened")

/-- C10 (confirmed): `[T; N]` is emitted as the `N`-element tuple
`"[T, T, ...]"` when `N ≤ 64` (with `N = 0` giving `"[]"`), and as exactly
`Vec<T>`'s `"Array<T>"` form when `N > 64`; `decl()`, `decl_concrete()` and
`inline_flattened()` fail for every `N`. -/
theorem C10_fixed_size_array (t : String) (N : Nat) :
    (N ≤ 64 → arrayForm t N = "[" ++ joinStr ", " (List.replicate N t) ++ "]") ∧
      (64 < N → arrayForm t N = vecForm t) ∧
      arrayForm t 0 = "[]" ∧
      (∀ s, arrayDecl t N ≠ Except.ok s) ∧
      (∀ s, arrayInlineFlattened t N ≠ Except.ok s) ∧
      arrayDecl t N = Except.error (arrayForm t N ++ " cannot be declared") ∧
      arrayInlineFlattened t N =
        Except.error (arrayForm t N ++ " cannot be flattened") := by
  have hL : ARRAY_TUPLE_LIMIT = 64 := rfl
  refine ⟨fun h => ?_, fun h => ?_, ?_, ?_, ?_, rfl, rfl⟩
  · rw [arrayForm, if_neg (by omega)]
  · rw [arrayForm, if_pos (by omega)]
  · rfl
  · intro s hs
    simp [arrayDecl] at hs
  · intro s hs
    simp [arrayInlineFlattened] at hs

/-- C10 witness: the characterization instantiated at element `"number"` with
the concrete lengths 2 (tuple form) and 65 (collection form). -/
theorem C10_witness :
    arrayForm "number" 2 = "[" ++ joinStr ", " (List.replicate 2 "number") ++ "]" ∧
      arrayForm "number" 65 = vecForm "number" :=
  ⟨(C10_fixed_size_array "number" 2).1 (by omega),
    ((C10_fixed_size_array "number" 65).2).1 (by omega)⟩

/-! ## Errors and path resolution (`ts-gen/src/error.rs`,
`ts-gen/src/export/path.rs`)

Filesystem paths are modelled as lists of components, mirroring
`std::path::Component` on Unix (prefixes do not occur).  `absolute` is the
export pipeline's path resolution: an absolute path is returned unchanged;
a relative path is joined onto the current directory and normalized by a
stack walk that drops `.`, pops on `..`, and fails when `..` is encountered
with an empty stack.
-/

/-- `ts-gen/src/error.rs::Error`.  `CannotBeExported` carries the `&'static
str` payload interpolated into the display message. -/
inductive TsError where
  | CannotBeExported (payload : String)
  | Formatting (msg : String)
  | Io (msg : String)
  | ManifestDirNotSet
deriving DecidableEq

/-- The `thiserror` display string of each error. -/
def TsError.message : TsError → String
  | .CannotBeExported payload => "this type cannot be exported (" ++ payload ++ ")"
  | .Formatting _ => "an error occurred while formatting the generated typescript output"
  | .Io cause => "an error occurred while performing IO (" ++ cause ++ ")"
  | .ManifestDirNotSet => "the environment variable CARGO_MANIFEST_DIR is not set"

/-- `std::path::Component` (Unix: no `Prefix` components). -/
inductive PathComp where
  | rootDir
  | curDir
  | parentDir
  | normal (s : String)
deriving DecidableEq, BEq

/-- `export/path.rs::ERROR_MESSAGE`. -/
def ERROR_MESSAGE : String :=
  "The path provided with `#[ts(export_to = \"..\")]` is not valid"

/-- `Path::is_absolute` (Unix: the path has a root). -/
def isAbsolutePath : List PathComp → Bool
  | .rootDir :: _ => true
  | _ => false

/-- The component loop of `absolute`: `CurDir` is dropped, `ParentDir` pops
the output stack (failing when it is empty), everything else is pushed.
`out` holds the already-accepted components in reverse. -/
def normComponents : List PathComp → List PathComp → Except TsError (List PathComp)
  | out, [] => .ok out
  | out, .curDir :: rest => normComponents out rest
  | out, .parentDir :: rest =>
    match out with
    | [] => .error (.CannotBeExported ERROR_MESSAGE)
    | _ :: outRest => normComponents outRest rest
  | out, .rootDir :: rest => normComponents (.rootDir :: out) rest
  | out, .normal s :: rest => normComponents (.normal s :: out) rest

/-- `export/path.rs::absolute` (the `current_dir` value is passed in;
the `?` on `std::env::current_dir()` is outside the property claimed). -/
def absolute (cwd : List PathComp) (path : List PathComp) :
    Except TsError (List PathComp) :=
  if isAbsolutePath path then .ok path
  else
    match normComponents [] (cwd ++ path) with
    | .error e => .error e
    | .ok out => .ok (if out.isEmpty then [.curDir] else out.reverse)

/-- Components that `absolute` pushes onto its stack (everything except
`.` and `..`). -/
def isPushComp : PathComp → Bool
  | .curDir => false
  | .parentDir => false
  | _ => true

def pushCount (l : List PathComp) : Nat :=
  l.countP isPushComp

def isParentComp : PathComp → Bool
  | .parentDir => true
  | _ => false

def parentCount (l : List PathComp) : Nat :=
  l.countP isParentComp

theorem pushCount_nil : pushCount [] = 0 := rfl

theorem parentCount_nil : parentCount [] = 0 := rfl

/-- The stack walk fails iff some `..` component is reached when the pops so
far (plus the initial stack) cannot absorb it: there is an index `n` holding
`..` such that the number of pushed components before `n` plus the initial
stack size is at most the number of `..` components before `n`. -/
theorem normComponents_error_iff (comps : List PathComp) :
    ∀ out : List PathComp,
      normComponents out comps = .error (.CannotBeExported ERROR_MESSAGE) ↔
        ∃ n, comps.get? n = some .parentDir ∧
          out.length + pushCount (comps.take n) ≤ parentCount (comps.take n) := by
  induction comps with
  | nil =>
    intro out
    constructor
    · intro h; cases h
    · rintro ⟨n, hn, _⟩
      simp at hn
  | cons c rest ih =>
    intro out
    cases c with
    | curDir =>
      rw [normComponents, ih out]
      constructor
      · rintro ⟨n, hn, hcount⟩
        refine ⟨n + 1, by simpa using hn, ?_⟩
        simp [pushCount, parentCount, List.take_succ_cons, List.countP_cons,
          isPushComp, isParentComp] at hcount ⊢
        omega
      · rintro ⟨n, hn, hcount⟩
        cases n with
        | zero => simp at hn
        | succ m =>
          refine ⟨m, by simpa using hn, ?_⟩
          simp [pushCount, parentCount, List.take_succ_cons, List.countP_cons,
            isPushComp, isParentComp] at hcount ⊢
          omega
    | parentDir =>
      cases out with
      | nil =>
        rw [normComponents]
        constructor
        · intro _
          exact ⟨0, rfl, by simp [pushCount, parentCount]⟩
        · intro _; rfl
      | cons o os =>
        rw [normComponents, ih os]
        constructor
        · rintro ⟨n, hn, hcount⟩
          refine ⟨n + 1, by simpa using hn, ?_⟩
          simp [pushCount, parentCount, List.take_succ_cons, List.countP_cons,
            isPushComp, isParentComp] at hcount ⊢
          omega
        · rintro ⟨n, hn, hcount⟩
          cases n with
          | zero =>
            simp [pushCount, parentCount] at hcount
          | succ m =>
            refine ⟨m, by simpa using hn, ?_⟩
            simp [pushCount, parentCount, List.take_succ_cons, List.countP_cons,
              isPushComp, isParentComp] at hcount ⊢
            omega
    | rootDir =>
      rw [normComponents, ih (.rootDir :: out)]
      constructor
      · rintro ⟨n, hn, hcount⟩
        refine ⟨n + 1, by simpa using hn, ?_⟩
        simp [pushCount, parentCount, List.take_succ_cons, List.countP_cons,
          isPushComp, isParentComp] at hcount ⊢
        omega
      · rintro ⟨n, hn, hcount⟩
        cases n with
        | zero => simp at hn
        | succ m =>
          refine ⟨m, by simpa using hn, ?_⟩
          simp [pushCount, parentCount, List.take_succ_cons, List.countP_cons,
            isPushComp, isParentComp] at hcount ⊢
          omega
    | normal s =>
      rw [normComponents, ih (.normal s :: out)]
      constructor
      · rintro ⟨n, hn, hcount⟩
        refine ⟨n + 1, by simpa using hn, ?_⟩
        simp [pushCount, parentCount, List.take_succ_cons, List.countP_cons,
          isPushComp, isParentComp] at hcount ⊢
        omega
      · rintro ⟨n, hn, hcount⟩
        cases n with
        | zero => simp at hn
        | succ m =>
          refine ⟨m, by simpa using hn, ?_⟩
          simp [pushCount, parentCount, List.take_succ_cons, List.countP_cons,
            isPushComp, isParentComp] at hcount ⊢
          omega

/-- C3 counterexample: the claim says path resolution fails for every
export-to path escaping the output base directory via `..`; but with current
directory `/proj`, the base-relative path `bindings/../outside.ts` — which
escapes the base directory `bindings` — resolves successfully to
`/proj/outside.ts`, and no error is reported. -/
theorem C3_counterexample :
    absolute [.rootDir, .normal "proj"]
        [.normal "bindings", .parentDir, .normal "outside.ts"] =
      Except.ok [.rootDir, .normal "proj", .normal "outside.ts"] ∧
    ([PathComp.rootDir, .normal "proj", .normal "bindings"].isPrefixOf
        [PathComp.rootDir, .normal "proj", .normal "outside.ts"]) = false := by
  constructor
  · rfl
  · rfl

/-- C3 (amended): for a relative path, resolution fails (with
`CannotBeExported`, before any write — `absolute` performs none) iff the
`..` segments climb past the beginning of the joined
current-directory-plus-path component sequence; merely escaping the output
base directory while staying inside the current directory's ancestry
resolves successfully. -/
theorem C3_absolute_error_characterization (cwd path : List PathComp)
    (hrel : isAbsolutePath path = false) :
    absolute cwd path = .error (.CannotBeExported ERROR_MESSAGE) ↔
      ∃ n, (cwd ++ path).get? n = some .parentDir ∧
        pushCount ((cwd ++ path).take n) ≤ parentCount ((cwd ++ path).take n) := by
  rw [absolute, if_neg (by simp [hrel])]
  have h := normComponents_error_iff (cwd ++ path) []
  simp only [List.length_nil, Nat.zero_add] at h
  rw [← h]
  cases hnorm : normComponents [] (cwd ++ path) with
  | error e => simp [hnorm]
  | ok out =>
    simp only [hnorm]
    constructor
    · intro he; cases he
    · intro he; cases he

/-- C3 witness: the characterization instantiated at the concrete relative
path `bindings/../../../x.ts` under the current directory `/proj`, whose
`..` segments climb past the root: resolution fails. -/
theorem C3_witness :
    absolute [.rootDir, .normal "proj"]
        [.normal "bindings", .parentDir, .parentDir, .parentDir, .parentDir,
          .normal "x.ts"] =
      Except.error (.CannotBeExported ERROR_MESSAGE) :=
  (C3_absolute_error_characterization
      [.rootDir, .normal "proj"]
      [.normal "bindings", .parentDir, .parentDir, .parentDir, .parentDir,
        .normal "x.ts"] rfl).mpr
    ⟨6, by decide, by decide⟩

/-! ## Single-type export (`ts-gen/src/lib.rs`, `TS::export` and
`TS::default_output_path`) -/

/-- `TS::default_output_path`: `None` when `output_path()` is `None`, else the
default output directory joined with the type's output path. -/
def default_output_path (defaultOutDir : List PathComp)
    (outputPath : Option (List PathComp)) : Option (List PathComp) :=
  match outputPath with
  | none => none
  | some p => some (defaultOutDir ++ p)

/-- `TS::export`: `default_output_path().ok_or_else(type_name::<Self>)
.map_err(Error::CannotBeExported)?`, then the actual filesystem export
(`export::export_to`), which is abstracted as `exportToFn` since it performs
the writes. -/
def TS.export (typeName : String) (defaultOutDir : List PathComp)
    (outputPath : Option (List PathComp))
    (exportToFn : List PathComp → Except TsError Unit) : Except TsError Unit :=
  match default_output_path defaultOutDir outputPath with
  | none => .error (.CannotBeExported typeName)
  | some p => exportToFn p

/-- C6 (confirmed): for every type whose `output_path()` is `None`, `export()`
fails with `CannotBeExported` carrying the type's name — whose display message
contains that name — without invoking the write path at all (the result does
not depend on `exportToFn`). -/
theorem C6_export_fails_without_output_path (typeName : String)
    (defaultOutDir : List PathComp)
    (exportToFn : List PathComp → Except TsError Unit) :
    TS.export typeName defaultOutDir none exportToFn =
        .error (.CannotBeExported typeName) ∧
      containsStr (TsError.message (.CannotBeExported typeName)) typeName = true ∧
      ∀ u, TS.export typeName defaultOutDir none exportToFn ≠ .ok u := by
  refine ⟨rfl, ?_, ?_⟩
  · exact containsStr_of_data_infix _ _
      ⟨"this type cannot be exported (".data, ")".data, by simp [TsError.message]⟩
  · intro u hu
    cases hu

/-! ## Native-dialect attribute parsing (`macros/src/utils.rs`, `impl_parse!`
and `parse_attrs`)

The `impl_parse!` macro generates a parse loop over `key (= value)?` items:
each key is matched against the accepted keys of the item kind; the first
unrecognized key aborts the parse with
`"Unknown attribute \"{x}\". Allowed attributes are: {list}"`, where the
list joins the `stringify!`-ed key patterns (hence each accepted key appears
quoted).  The per-key value handlers live in the per-kind attribute files and
are abstracted as `handle`, a state transformer that may itself fail on a
malformed value.
-/

/-- A key pattern as `stringify!` renders it in the error message:
surrounded by double quotes. -/
def quoteStr (sq : String) : String := "\"" ++ (sq ++ "\"")

/-- The `syn_err!` message produced for an unknown attribute key. -/
def unknownAttrMsg (key : String) (known : List String) : String :=
  "Unknown attribute \"" ++ (key ++ ("\". Allowed attributes are: " ++
    joinStr ", " (known.map quoteStr)))

/-- The `impl_parse!` loop over the keys of one `#[ts(...)]` occurrence. -/
def parseTsKeys {St : Type} (known : List String)
    (handle : String → St → Except String St) (acc : St) :
    List String → Except String St
  | [] => .ok acc
  | k :: rest =>
    if k ∈ known then
      match handle k acc with
      | .ok acc2 => parseTsKeys known handle acc2 rest
      | .error e => .error e
    else .error (unknownAttrMsg k known)

theorem containsStr_unknownAttrMsg_key (key : String) (known : List String) :
    containsStr (unknownAttrMsg key known) key = true := by
  apply containsStr_of_data_infix
  refine ⟨"Unknown attribute \"".data,
    ("\". Allowed attributes are: " ++ joinStr ", " (known.map quoteStr)).data, ?_⟩
  simp [unknownAttrMsg]

theorem containsStr_unknownAttrMsg_accepted (key : String) (known : List String)
    (kk : String) (hkk : kk ∈ known) :
    containsStr (unknownAttrMsg key known) kk = true := by
  obtain ⟨pre, post, hsplit⟩ :=
    joinStr_mem_split ", " (known.map quoteStr) (quoteStr kk)
      (List.mem_map_of_mem quoteStr hkk)
  apply containsStr_of_data_infix
  refine ⟨("Unknown attribute \"" ++ (key ++ "\". Allowed attributes are: ")).data
      ++ pre.data ++ "\"".data,
    ("\"" ++ post).data, ?_⟩
  simp [unknownAttrMsg, hsplit, quoteStr]

/-- C7 (confirmed): parsing an occurrence that contains an unrecognized key —
with well-formed values for the recognized keys before it — fails with the
`syn_err!` message of its first unrecognized key; the message contains that
key and every accepted key of the item kind.  Unknown keys are never silently
ignored. -/
theorem C7_unknown_attribute_key_rejected {St : Type} (known : List String)
    (handle : String → St → Except String St) (acc : St) (keys : List String)
    (htotal : ∀ k a, ∃ a2, handle k a = .ok a2)
    (hbad : ∃ k, k ∈ keys ∧ k ∉ known) :
    ∃ u, u ∈ keys ∧ u ∉ known ∧
      parseTsKeys known handle acc keys = .error (unknownAttrMsg u known) ∧
      containsStr (unknownAttrMsg u known) u = true ∧
      ∀ kk ∈ known, containsStr (unknownAttrMsg u known) kk = true := by
  induction keys generalizing acc with
  | nil =>
    obtain ⟨k, hk, _⟩ := hbad
    cases hk
  | cons k rest ih =>
    by_cases hmem : k ∈ known
    · obtain ⟨k0, hk0, hk0n⟩ := hbad
      have hk0rest : k0 ∈ rest := by
        rcases List.mem_cons.mp hk0 with h | h
        · exact absurd (h ▸ hmem) hk0n
        · exact h
      obtain ⟨acc2, hacc2⟩ := htotal k acc
      obtain ⟨u, hu1, hu2, hu3, hu4, hu5⟩ := ih acc2 ⟨k0, hk0rest, hk0n⟩
      refine ⟨u, List.mem_cons_of_mem _ hu1, hu2, ?_, hu4, hu5⟩
      rw [parseTsKeys, if_pos hmem, hacc2]
      exact hu3
    · refine ⟨k, List.mem_cons_self _ _, hmem, ?_,
        containsStr_unknownAttrMsg_key k known,
        fun kk hkk => containsStr_unknownAttrMsg_accepted k known kk hkk⟩
      rw [parseTsKeys, if_neg hmem]

/-- C7 witness: parsing the occurrence `#[ts(rename = .., renamed = ..)]`
against the accepted keys `rename`/`skip` (with handlers that always succeed)
fails on the unknown key `renamed`, whose error message lists the accepted
keys. -/
theorem C7_witness :
    ∃ u, u ∈ ["rename", "renamed"] ∧ u ∉ ["rename", "skip"] ∧
      parseTsKeys ["rename", "skip"] (fun _ (a : Unit) => .ok a) ()
          ["rename", "renamed"] = .error (unknownAttrMsg u ["rename", "skip"]) ∧
      containsStr (unknownAttrMsg u ["rename", "skip"]) u = true ∧
      ∀ kk ∈ ["rename", "skip"],
        containsStr (unknownAttrMsg u ["rename", "skip"]) kk = true :=
  C7_unknown_attribute_key_rejected ["rename", "skip"]
    (fun _ (a : Unit) => .ok a) () ["rename", "renamed"]
    (fun k a => ⟨a, rfl⟩) ⟨"renamed", by decide, by decide⟩

/-! ## Compatibility-dialect (serde) attribute parsing
(`macros/src/utils.rs`, `parse_serde_attrs`)

Each raw `#[serde(...)]` occurrence is modelled as its raw token text paired
with its parse result (`none` = unparseable).  `parse_serde_attrs` never
returns an error: unparseable occurrences are dropped after printing a
warning — in the source, unconditionally: the function contains no
`no-serde-warnings` gate — and the parseable ones are right-folded into the
default attribute value.  The returned pair is (merged value, warnings in
occurrence order, each warning carrying the offending attribute's tokens).
-/

def parse_serde_attrs {A : Type} (dflt : A) (merge : A → A → A)
    (occs : List (String × Option A)) : A × List String :=
  occs.foldl
    (fun st occ =>
      match occ.2 with
      | some a => (merge st.1 a, st.2)
      | none => (st.1, st.2 ++ ["failed to parse serde attribute: " ++ occ.1]))
    (dflt, [])

/-- C4: evaluation at a failing input.  A single unparseable serde attribute
is dropped — the merged value is still returned, no error — and the warning is
emitted; the model has no suppression parameter because the source prints the
warning unconditionally. -/
theorem C4_warning_emitted_unconditionally :
    parse_serde_attrs 0 (fun a b => a + b)
        [("serde (with = \"x\")", (none : Option Nat))] =
      (0, ["failed to parse serde attribute: serde (with = \"x\")"]) := by
  rfl

end TsGen